import Mathlib

/-!
Shallow embedding of the quiz WebSocket server (`server/index.js`) of the
4-Node repository.  The server keeps a single mutable `session` object and a
map of connected clients; message handlers mutate the session and broadcast a
per-viewer derived snapshot.  Here the session is an explicit state value,
each handler is a function `... → Session → Session`, and the wall clock
(`Date.now()`) and the client map are passed as explicit arguments.

JS numbers that the code validates to be integers are modelled as `Int`
(timestamps as `Nat`); JS objects used as string-keyed maps are modelled as
association lists in insertion order; `null`/`undefined` become `Option`.
-/

namespace Quiz

/-- A bank entry: `{ id, prompt, options, correct }`. -/
structure Question where
  id : String
  prompt : String
  options : List String
  correct : Nat
deriving DecidableEq, Repr

/-- The four game phases: `'lobby' | 'question' | 'reveal' | 'ended'`. -/
inductive Phase where
  | lobby
  | question
  | reveal
  | ended
deriving DecidableEq, Repr

/-- A recorded answer `{ optionIndex, ts }`.  The handler coerces the payload
with `Number(...)` and checks `Number.isInteger`, so the stored value is an
integer; we model it as `Int` (the range check is the handler's job, not the
data type's). -/
structure Answer where
  optionIndex : Int
  ts : Nat
deriving DecidableEq, Repr

/-- The server's `session` object. `endsAt` is `null` or a timestamp;
`answers` maps userId to an `Answer`; `scores` maps userId to a number. -/
structure Session where
  phase : Phase
  questionIndex : Int
  endsAt : Option Nat
  answers : List (String × Answer)
  scores : List (String × Nat)
deriving DecidableEq, Repr

/-- Per-connection metadata stored in the `clients` map: `{ clientId, color, name }`. -/
structure ClientMeta where
  clientId : String
  color : String
  name : String
deriving DecidableEq, Repr

/-- Roster entry `{ id, name, color }` of the derived snapshot's `players`. -/
structure Player where
  id : String
  name : String
  color : String
deriving DecidableEq, Repr

/-- `QUESTION_DURATION_MS = 15000`. -/
def QUESTION_DURATION_MS : Nat := 15000

/-- The configured admin passphrase (`ADMIN_PASSWORD = '1234'`). -/
def ADMIN_PASSWORD : String := "1234"

/-- The question bank of the server (identical in both source variants). -/
def questionBank : List Question :=
  [ { id := "q1", prompt := "What is inflation?",
      options := ["A general rise in prices", "A drop in all prices", "Only stock prices rising", "Interest rates falling"],
      correct := 0 },
    { id := "q2", prompt := "GDP stands for?",
      options := ["Gross Domestic Product", "Global Debt Position", "Government Deposit Portfolio", "General Demand Price"],
      correct := 0 },
    { id := "q3", prompt := "A budget is balanced when?",
      options := ["Spending is below revenue", "Spending equals revenue", "Spending is double revenue", "There is no tax collected"],
      correct := 1 },
    { id := "q4", prompt := "A central bank mainly does what?",
      options := ["Prints textbooks", "Manages money supply and interest rates", "Sets grocery prices", "Runs private banks"],
      correct := 1 },
    { id := "q5", prompt := "If demand rises and supply stays the same, price usually?",
      options := ["Goes up", "Goes down", "Stays the same", "Becomes zero"],
      correct := 0 },
    { id := "q6", prompt := "Which of these is money?",
      options := ["Bank deposits", "Movie tickets", "Coupons", "A promise on paper"],
      correct := 0 },
    { id := "q7", prompt := "The unemployment rate measures?",
      options := ["Everyone without a job", "People not working and not looking", "The share of the labor force looking for work", "Only students"],
      correct := 2 },
    { id := "q8", prompt := "Trade can make countries better off because of?",
      options := ["Self-sufficiency", "Comparative advantage", "Zero imports", "Equal wages everywhere"],
      correct := 1 },
    { id := "q9", prompt := "Higher interest rates usually make borrowing?",
      options := ["Cheaper", "More expensive", "Free", "Impossible"],
      correct := 1 },
    { id := "q10", prompt := "Saving vs investing: which is true?",
      options := ["Saving never has risk", "Investing can pay more but has risk", "Both always lose money", "Investing has no risk"],
      correct := 1 } ]

/-- The initial `session` literal: lobby, no question, no deadline, empty maps. -/
def initialSession : Session :=
  { phase := Phase.lobby, questionIndex := -1, endsAt := none, answers := [], scores := [] }

/-- First-match lookup in a string-keyed association list (JS property read
`obj[key]`, `undefined` becoming `none`). -/
def lookupKey {β : Type} (key : String) : List (String × β) → Option β
  | [] => none
  | (k, v) :: rest => if k = key then some v else lookupKey key rest

/-- The numeric value JS reads as `scores[userId] || 0`. -/
def scoreOf (userId : String) (scores : List (String × Nat)) : Nat :=
  (lookupKey userId scores).getD 0

/-- `session.scores[userId] = (session.scores[userId] || 0) + 1`: update the
existing entry in place, or append a fresh entry with value 1. -/
def bumpScore (userId : String) : List (String × Nat) → List (String × Nat)
  | [] => [(userId, 1)]
  | (k, v) :: rest =>
      if k = userId then (k, v + 1) :: rest else (k, v) :: bumpScore userId rest

/-- The scoring loop of `revealQuestion`: for every `[userId, answer]` of
`Object.entries(session.answers)`, if `answer.optionIndex === question.correct`
then increment that user's score. -/
def applyScores (correct : Int) : List (String × Answer) →
    List (String × Nat) → List (String × Nat)
  | [], scores => scores
  | (userId, answer) :: rest, scores =>
      applyScores correct rest
        (if answer.optionIndex = correct then bumpScore userId scores else scores)

/-- `currentQuestion()`: `questions[session.questionIndex]` or `null`
(out-of-range and -1 indices read as `undefined`). -/
def currentQuestion (qs : List Question) (s : Session) : Option Question :=
  if 0 ≤ s.questionIndex then qs[s.questionIndex.toNat]? else none

/-- One step of the `calcCounts` loop: increment `counts[optionIndex]` when
`Number.isInteger(optionIndex) && counts[optionIndex] !== undefined`, i.e.
when the index is an integer in `[0, 3]` (the array always has length 4). -/
def countsStep (counts : List Nat) (a : Answer) : List Nat :=
  if 0 ≤ a.optionIndex ∧ a.optionIndex ≤ 3 then
    counts.set a.optionIndex.toNat (counts.getD a.optionIndex.toNat 0 + 1)
  else counts

/-- `calcCounts()`: fold the recorded answers over `Array(4).fill(0)`. -/
def calcCounts (answers : List (String × Answer)) : List Nat :=
  answers.foldl (fun counts p => countsStep counts p.2) [0, 0, 0, 0]

/-- The personalized `question` field of the snapshot. -/
structure QuestionView where
  id : String
  prompt : String
  options : List String
  correct : Option Nat
deriving DecidableEq, Repr

/-- The derived snapshot object returned by `deriveState`. -/
structure Snapshot where
  phase : Phase
  questionIndex : Int
  totalQuestions : Nat
  timeLeft : Nat
  question : Option QuestionView
  counts : List Nat
  totalAnswers : Nat
  answers : List (String × Answer)
  scores : List (String × Nat)
  youAnswered : Option Int
  players : List Player
deriving DecidableEq, Repr

/-- Roster projection used for `players`: `{ id: c.clientId, name: c.name, color: c.color }`. -/
def toPlayer (c : ClientMeta) : Player :=
  { id := c.clientId, name := c.name, color := c.color }

/-- `deriveState(viewerId)`.  The ambient globals it reads — the question bank,
the `clients` map and `Date.now()` — are explicit arguments here.  `timeLeft`
is `max(0, endsAt - now)` when the phase is `question` and `endsAt` is truthy
(non-null and non-zero), else 0; `question.correct` is the real index only in
the `reveal` phase and `null` otherwise; `youAnswered` is this viewer's
`optionIndex` (or `undefined` when absent or when `viewerId` is falsy). -/
def deriveState (qs : List Question) (clients : List ClientMeta) (now : Nat)
    (s : Session) (viewerId : String) : Snapshot :=
  let question := currentQuestion qs s
  let counts := calcCounts s.answers
  let timeLeft : Nat :=
    match s.endsAt with
    | some e => if s.phase = Phase.question ∧ e ≠ 0 then e - now else 0
    | none => 0
  { phase := s.phase
    questionIndex := s.questionIndex
    totalQuestions := qs.length
    timeLeft := timeLeft
    question := question.map (fun q =>
      { id := q.id, prompt := q.prompt, options := q.options,
        correct := if s.phase = Phase.reveal then some q.correct else none })
    counts := counts
    totalAnswers := s.answers.length
    answers := s.answers
    scores := s.scores
    youAnswered :=
      if viewerId = "" then none
      else (lookupKey viewerId s.answers).map Answer.optionIndex
    players := clients.map toPlayer }

/-- `startQuestion(index)`: enter the `question` phase, clear the answers and
arm the deadline at `Date.now() + QUESTION_DURATION_MS`. -/
def startQuestion (index : Int) (now : Nat) (s : Session) : Session :=
  { s with phase := Phase.question, questionIndex := index, answers := [],
           endsAt := some (now + QUESTION_DURATION_MS) }

/-- `revealQuestion()`: no-op unless the phase is `question`; otherwise enter
`reveal`, clear the deadline and run the scoring loop over the recorded
answers of the (unchanged) current question. -/
def revealQuestion (qs : List Question) (s : Session) : Session :=
  if s.phase ≠ Phase.question then s
  else
    match currentQuestion qs s with
    | some q =>
        { s with phase := Phase.reveal, endsAt := none,
                 scores := applyScores (q.correct : Int) s.answers s.scores }
    | none => { s with phase := Phase.reveal, endsAt := none }

/-- `nextQuestion()`: start the next question if one remains, else end the game. -/
def nextQuestion (qs : List Question) (now : Nat) (s : Session) : Session :=
  if s.questionIndex + 1 < (qs.length : Int) then
    startQuestion (s.questionIndex + 1) now s
  else
    { s with phase := Phase.ended, endsAt := none }

/-- `case 'start'`: requires a non-empty actor name and phase `lobby` or
`ended`; resets the scores and answers and starts question 0 (primary source
variant, which clears `answers` explicitly before `startQuestion`). -/
def handleStart (actorName : String) (now : Nat) (s : Session) : Session :=
  if actorName = "" then s
  else if s.phase = Phase.lobby ∨ s.phase = Phase.ended then
    startQuestion 0 now { s with scores := [], answers := [] }
  else s

/-- `case 'start'` of the second source variant: resets only `scores` before
calling `startQuestion(0)` (which itself clears `answers`). -/
def handleStartVariant2 (actorName : String) (now : Nat) (s : Session) : Session :=
  if actorName = "" then s
  else if s.phase = Phase.lobby ∨ s.phase = Phase.ended then
    startQuestion 0 now { s with scores := [] }
  else s

/-- `case 'answer'`: accepted only in the `question` phase, by a named actor,
with an integer option index in `[0, 3]`, and only when this actor id has no
recorded answer yet; a fresh answer is appended to the map with `ts = now`. -/
def handleAnswer (actorName actorId : String) (optionIndex : Int) (now : Nat)
    (s : Session) : Session :=
  if s.phase ≠ Phase.question then s
  else if actorName = "" then s
  else if ¬(0 ≤ optionIndex ∧ optionIndex ≤ 3) then s
  else
    match lookupKey actorId s.answers with
    | some _ => s
    | none => { s with answers := s.answers ++ [(actorId, { optionIndex := optionIndex, ts := now })] }

/-- `case 'next'`: only in the `reveal` phase; on the last question end the
game, otherwise fall through to `nextQuestion()`. -/
def handleNext (qs : List Question) (now : Nat) (s : Session) : Session :=
  if s.phase = Phase.reveal then
    if (qs.length : Int) ≤ s.questionIndex + 1 then
      { s with phase := Phase.ended, endsAt := none }
    else nextQuestion qs now s
  else s

/-- `case 'admin-restart'`: with the correct password, overwrite the whole
session (question 0, fresh deadline, cleared maps) from any phase; with a
wrong password only a server-side `console.log` happens and the session is
untouched (no message is sent to the actor in either branch beyond the
ordinary state broadcast of the success path). -/
def handleAdminRestart (password : String) (now : Nat) (s : Session) : Session :=
  if password = ADMIN_PASSWORD then
    { phase := Phase.question, questionIndex := 0,
      endsAt := some (now + QUESTION_DURATION_MS), answers := [], scores := [] }
  else s

/-- `case 'return-to-lobby'`: only from `ended`; reset the session to the
lobby literal. -/
def handleReturnToLobby (s : Session) : Session :=
  if s.phase = Phase.ended then
    { phase := Phase.lobby, questionIndex := -1, endsAt := none, answers := [], scores := [] }
  else s

/-- The 500 ms `setInterval` body: when the phase is `question`, `endsAt` is
truthy and `Date.now() >= endsAt`, run `revealQuestion()`. -/
def tickCheck (qs : List Question) (now : Nat) (s : Session) : Session :=
  match s.endsAt with
  | some e =>
      if s.phase = Phase.question ∧ e ≠ 0 ∧ e ≤ now then revealQuestion qs s else s
  | none => s

/-- The session-mutating events: the five session actions of the message
switch plus the auto-reveal timer tick (`resume` and `set-name` never touch
the session).  Each carries the actor data and the `Date.now()` value its
handler observes. -/
inductive Action where
  | start (actorName : String) (now : Nat)
  | answer (actorName actorId : String) (optionIndex : Int) (now : Nat)
  | next (now : Nat)
  | adminRestart (password : String) (now : Nat)
  | returnToLobby
  | tick (now : Nat)
deriving DecidableEq, Repr

/-- Dispatch of one event on the session, following the message switch of the
primary source variant and the timer body. -/
def step (qs : List Question) (s : Session) : Action → Session
  | Action.start actorName now => handleStart actorName now s
  | Action.answer actorName actorId optionIndex now =>
      handleAnswer actorName actorId optionIndex now s
  | Action.next now => handleNext qs now s
  | Action.adminRestart password now => handleAdminRestart password now s
  | Action.returnToLobby => handleReturnToLobby s
  | Action.tick now => tickCheck qs now s

/-- The states the single-threaded event loop can put the session in: the
initial literal followed by any finite sequence of handled events. -/
def Reachable (qs : List Question) (s : Session) : Prop :=
  ∃ acts : List Action, s = acts.foldl (step qs) initialSession

/-- A run of reveal-then-next cycles, one per listed `Date.now()` value. -/
def runCycles (qs : List Question) (nows : List Nat) (s : Session) : Session :=
  nows.foldl (fun t now => handleNext qs now (revealQuestion qs t)) s

/-! Concrete fixtures used to instantiate the theorems below. -/

/-- A two-question bank for concrete instantiations. -/
def smallBank : List Question :=
  [ { id := "s1", prompt := "one", options := ["a", "b", "c", "d"], correct := 0 },
    { id := "s2", prompt := "two", options := ["a", "b", "c", "d"], correct := 2 } ]

/-- A session sitting in the `reveal` phase on question 0. -/
def revealSession : Session :=
  { phase := Phase.reveal, questionIndex := 0, endsAt := none,
    answers := [], scores := [] }

/-- A session in mid-`question` phase on question 0 with an armed deadline. -/
def questionSession : Session :=
  { phase := Phase.question, questionIndex := 0, endsAt := some 15000,
    answers := [], scores := [] }

/-- A session reached by a `start` followed by one recorded answer. -/
def reachedAnswered : Session :=
  ([Action.start "Ann" 0, Action.answer "Ann" "alice1" 1 5]).foldl
    (step smallBank) initialSession

/-- A mid-question session with one correct and one wrong recorded answer. -/
def scoringSession : Session :=
  { phase := Phase.question, questionIndex := 0, endsAt := some 15000,
    answers := [("alice1", { optionIndex := 0, ts := 3 }),
                ("bob55", { optionIndex := 1, ts := 4 })],
    scores := [] }

/-- The session invariants every handler maintains: answer keys are
duplicate-free, every recorded option index lies in `[0, 3]`, and the
deadline is armed exactly in the `question` phase. -/
def WellFormed (s : Session) : Prop :=
  (s.answers.map Prod.fst).Nodup ∧
  (∀ p ∈ s.answers, 0 ≤ p.2.optionIndex ∧ p.2.optionIndex ≤ 3) ∧
  (s.endsAt ≠ none ↔ s.phase = Phase.question)

/-- When the phase is `question`, `revealQuestion` moves it to `reveal`. -/
theorem revealQuestion_phase (qs : List Question) (s : Session)
    (h : s.phase = Phase.question) :
    (revealQuestion qs s).phase = Phase.reveal := by
  unfold revealQuestion
  rw [if_neg (by simp [h])]
  cases hq : currentQuestion qs s <;> simp

/-- Outside the `question` phase `revealQuestion` is the identity. -/
theorem revealQuestion_noop (qs : List Question) (s : Session)
    (h : s.phase ≠ Phase.question) : revealQuestion qs s = s := by
  simp [revealQuestion, h]

/-- A `lookupKey` miss is exactly absence of the key. -/
theorem lookupKey_eq_none {β : Type} (key : String) (l : List (String × β)) :
    lookupKey key l = none ↔ key ∉ l.map Prod.fst := by
  induction l with
  | nil => simp [lookupKey]
  | cons p rest ih =>
      obtain ⟨k, v⟩ := p
      by_cases h : k = key
      · subst h
        simp [lookupKey]
      · simp only [lookupKey, if_neg h, List.map_cons, List.mem_cons, ih]
        constructor
        · intro hn hc
          rcases hc with hc | hc
          · exact h hc.symm
          · exact hn hc
        · intro hn hc
          exact hn (Or.inr hc)

theorem wellFormed_initial : WellFormed initialSession := by
  refine ⟨?_, ?_, ?_⟩ <;> simp [initialSession]

theorem wellFormed_startQuestion (index : Int) (now : Nat) (s : Session) :
    WellFormed (startQuestion index now s) := by
  refine ⟨?_, ?_, ?_⟩ <;> simp [startQuestion]

theorem wellFormed_revealQuestion (qs : List Question) (s : Session)
    (h : WellFormed s) : WellFormed (revealQuestion qs s) := by
  by_cases hp : s.phase = Phase.question
  · unfold revealQuestion
    rw [if_neg (by simp [hp])]
    cases hq : currentQuestion qs s with
    | some q => exact ⟨h.1, h.2.1, by simp⟩
    | none => exact ⟨h.1, h.2.1, by simp⟩
  · rw [revealQuestion_noop qs s hp]
    exact h

theorem wellFormed_handleStart (actorName : String) (now : Nat) (s : Session)
    (h : WellFormed s) : WellFormed (handleStart actorName now s) := by
  unfold handleStart
  split
  · exact h
  · split
    · exact wellFormed_startQuestion _ _ _
    · exact h

theorem wellFormed_handleAnswer (actorName actorId : String) (optionIndex : Int)
    (now : Nat) (s : Session) (h : WellFormed s) :
    WellFormed (handleAnswer actorName actorId optionIndex now s) := by
  unfold handleAnswer
  split
  · exact h
  · split
    · exact h
    · split
      · exact h
      · rename_i hphase hname hvalid
        rw [not_not] at hvalid
        cases hl : lookupKey actorId s.answers with
        | some a => exact h
        | none =>
            have hnotmem : actorId ∉ s.answers.map Prod.fst :=
              (lookupKey_eq_none _ _).1 hl
            refine ⟨?_, ?_, ?_⟩
            · simp only [List.map_append, List.map_cons, List.map_nil]
              rw [List.nodup_append]
              refine ⟨h.1, List.nodup_singleton _, ?_⟩
              intro x hx hx'
              simp only [List.mem_singleton] at hx'
              subst hx'
              exact hnotmem hx
            · intro p hp
              rcases List.mem_append.1 hp with hp | hp
              · exact h.2.1 p hp
              · simp only [List.mem_singleton] at hp
                subst hp
                exact hvalid
            · exact h.2.2

theorem wellFormed_handleNext (qs : List Question) (now : Nat) (s : Session)
    (h : WellFormed s) : WellFormed (handleNext qs now s) := by
  unfold handleNext nextQuestion
  split
  · split
    · exact ⟨h.1, h.2.1, by simp⟩
    · split
      · exact wellFormed_startQuestion _ _ _
      · exact ⟨h.1, h.2.1, by simp⟩
  · exact h

theorem wellFormed_handleAdminRestart (password : String) (now : Nat)
    (s : Session) (h : WellFormed s) :
    WellFormed (handleAdminRestart password now s) := by
  unfold handleAdminRestart
  split
  · refine ⟨?_, ?_, ?_⟩ <;> simp
  · exact h

theorem wellFormed_handleReturnToLobby (s : Session) (h : WellFormed s) :
    WellFormed (handleReturnToLobby s) := by
  unfold handleReturnToLobby
  split
  · refine ⟨?_, ?_, ?_⟩ <;> simp
  · exact h

theorem wellFormed_tickCheck (qs : List Question) (now : Nat) (s : Session)
    (h : WellFormed s) : WellFormed (tickCheck qs now s) := by
  unfold tickCheck
  cases he : s.endsAt with
  | none => exact h
  | some e =>
      show WellFormed
        (if s.phase = Phase.question ∧ e ≠ 0 ∧ e ≤ now then revealQuestion qs s else s)
      by_cases hc : s.phase = Phase.question ∧ e ≠ 0 ∧ e ≤ now
      · rw [if_pos hc]
        exact wellFormed_revealQuestion qs s h
      · rw [if_neg hc]
        exact h

theorem wellFormed_step (qs : List Question) (s : Session) (a : Action)
    (h : WellFormed s) : WellFormed (step qs s a) := by
  cases a with
  | start actorName now => exact wellFormed_handleStart actorName now s h
  | answer actorName actorId optionIndex now =>
      exact wellFormed_handleAnswer actorName actorId optionIndex now s h
  | next now => exact wellFormed_handleNext qs now s h
  | adminRestart password now => exact wellFormed_handleAdminRestart password now s h
  | returnToLobby => exact wellFormed_handleReturnToLobby s h
  | tick now => exact wellFormed_tickCheck qs now s h

theorem wellFormed_foldl (qs : List Question) (acts : List Action) :
    ∀ s : Session, WellFormed s → WellFormed (acts.foldl (step qs) s) := by
  induction acts with
  | nil => intro s h; exact h
  | cons a rest ih => intro s h; exact ih (step qs s a) (wellFormed_step qs s a h)

/-- Every reachable session satisfies the handler invariants. -/
theorem reachable_wellFormed (qs : List Question) (s : Session)
    (h : Reachable qs s) : WellFormed s := by
  obtain ⟨acts, rfl⟩ := h
  exact wellFormed_foldl qs acts initialSession wellFormed_initial

/-- C1: in every derived snapshot that carries a question view, the `correct`
field is `null` whenever the phase is not `reveal`, and is exactly the current
question's true correct index when the phase is `reveal`. -/
theorem correct_index_gated_on_reveal (qs : List Question)
    (clients : List ClientMeta) (now : Nat) (s : Session) (viewerId : String)
    (qv : QuestionView)
    (hq : (deriveState qs clients now s viewerId).question = some qv) :
    (s.phase ≠ Phase.reveal → qv.correct = none) ∧
    (s.phase = Phase.reveal →
      ∃ q, currentQuestion qs s = some q ∧ qv.correct = some q.correct) := by
  simp only [deriveState, Option.map_eq_some'] at hq
  obtain ⟨q, hcq, hqv⟩ := hq
  subst hqv
  constructor
  · intro hph
    simp [hph]
  · intro hph
    exact ⟨q, hcq, by simp [hph]⟩

/-- Witness for `correct_index_gated_on_reveal` at a concrete reveal-phase
session. -/
theorem correct_index_gated_on_reveal_witness :
    (revealSession.phase ≠ Phase.reveal →
      (QuestionView.mk "s1" "one" ["a", "b", "c", "d"] (some 0)).correct = none) ∧
    (revealSession.phase = Phase.reveal →
      ∃ q, currentQuestion smallBank revealSession = some q ∧
        (QuestionView.mk "s1" "one" ["a", "b", "c", "d"] (some 0)).correct = some q.correct) :=
  correct_index_gated_on_reveal smallBank [] 0 revealSession ""
    (QuestionView.mk "s1" "one" ["a", "b", "c", "d"] (some 0)) rfl

/-- C4: a `start` action is accepted exactly when the actor is named and the
phase is `lobby` or `ended`; it then yields question 0 with empty scores and
answers and a fresh `now + 15000` deadline, and otherwise changes nothing.
The second source variant (which resets only `scores` before `startQuestion`)
produces the same session. -/
theorem start_action_spec (s : Session) (actorName : String) (now : Nat) :
    (handleStart actorName now s =
      if actorName ≠ "" ∧ (s.phase = Phase.lobby ∨ s.phase = Phase.ended) then
        { phase := Phase.question, questionIndex := 0,
          endsAt := some (now + QUESTION_DURATION_MS), answers := [], scores := [] }
      else s) ∧
    handleStartVariant2 actorName now s = handleStart actorName now s := by
  constructor
  · by_cases h1 : actorName = "" <;>
      by_cases h2 : s.phase = Phase.lobby ∨ s.phase = Phase.ended <;>
        simp [handleStart, startQuestion, h1, h2]
  · by_cases h1 : actorName = "" <;>
      by_cases h2 : s.phase = Phase.lobby ∨ s.phase = Phase.ended <;>
        simp [handleStart, handleStartVariant2, startQuestion, h1, h2]

/-- C5: `admin-restart` with the configured passphrase rebuilds the session at
question 0 with cleared maps and a fresh deadline, from any phase; with any
other password the session is left exactly as it was (the actor receives no
differentiated feedback — nothing is sent at all on the failure path). -/
theorem admin_restart_spec (s : Session) (password : String) (now : Nat) :
    (password = ADMIN_PASSWORD →
      handleAdminRestart password now s =
        { phase := Phase.question, questionIndex := 0,
          endsAt := some (now + QUESTION_DURATION_MS), answers := [], scores := [] }) ∧
    (password ≠ ADMIN_PASSWORD → handleAdminRestart password now s = s) := by
  constructor <;> intro h <;> simp [handleAdminRestart, h]

/-- Witness for `admin_restart_spec`: a correct and a wrong password applied
to a reveal-phase session. -/
theorem admin_restart_spec_witness :
    handleAdminRestart "1234" 7 revealSession =
      { phase := Phase.question, questionIndex := 0,
        endsAt := some (7 + QUESTION_DURATION_MS), answers := [], scores := [] } ∧
    handleAdminRestart "9999" 7 revealSession = revealSession :=
  ⟨(admin_restart_spec revealSession "1234" 7).1 rfl,
   (admin_restart_spec revealSession "9999" 7).2 (by decide)⟩

/-- C8 counterexample: the derivation is not a function of the session and
viewer id alone — the same session and viewer evaluated at two different
`Date.now()` readings yield different snapshots (the `timeLeft` field moves). -/
theorem derive_state_not_pure_counterexample :
    deriveState smallBank [] 0 questionSession "" ≠
      deriveState smallBank [] 1000 questionSession "" := by
  intro h
  have ht := congrArg Snapshot.timeLeft h
  simp [deriveState, questionSession] at ht

/-- C8 amended: the derivation is pure once the wall clock and the connection
roster are counted among its inputs — with the same session, viewer id,
roster and time the snapshots are identical, and varying only the time
changes at most the `timeLeft` field. -/
theorem derive_state_pure_given_time (qs : List Question)
    (clients : List ClientMeta) (s : Session) (viewerId : String)
    (now₁ now₂ : Nat) :
    (now₁ = now₂ →
      deriveState qs clients now₁ s viewerId = deriveState qs clients now₂ s viewerId) ∧
    ((deriveState qs clients now₁ s viewerId).phase =
        (deriveState qs clients now₂ s viewerId).phase ∧
      (deriveState qs clients now₁ s viewerId).questionIndex =
        (deriveState qs clients now₂ s viewerId).questionIndex ∧
      (deriveState qs clients now₁ s viewerId).totalQuestions =
        (deriveState qs clients now₂ s viewerId).totalQuestions ∧
      (deriveState qs clients now₁ s viewerId).question =
        (deriveState qs clients now₂ s viewerId).question ∧
      (deriveState qs clients now₁ s viewerId).counts =
        (deriveState qs clients now₂ s viewerId).counts ∧
      (deriveState qs clients now₁ s viewerId).totalAnswers =
        (deriveState qs clients now₂ s viewerId).totalAnswers ∧
      (deriveState qs clients now₁ s viewerId).answers =
        (deriveState qs clients now₂ s viewerId).answers ∧
      (deriveState qs clients now₁ s viewerId).scores =
        (deriveState qs clients now₂ s viewerId).scores ∧
      (deriveState qs clients now₁ s viewerId).youAnswered =
        (deriveState qs clients now₂ s viewerId).youAnswered ∧
      (deriveState qs clients now₁ s viewerId).players =
        (deriveState qs clients now₂ s viewerId).players) :=
  ⟨fun h => by rw [h], rfl, rfl, rfl, rfl, rfl, rfl, rfl, rfl, rfl, rfl⟩

/-- Witness for `derive_state_pure_given_time` at concrete inputs. -/
theorem derive_state_pure_given_time_witness :
    deriveState smallBank [] 5 questionSession "" =
      deriveState smallBank [] 5 questionSession "" :=
  (derive_state_pure_given_time smallBank [] questionSession "" 5 5).1 rfl

/-- C7: in every session reachable from the initial lobby state by any
sequence of handled actions and timer ticks, the deadline is set exactly when
the phase is `question`. -/
theorem deadline_iff_question_phase (qs : List Question) (s : Session)
    (h : Reachable qs s) : s.endsAt ≠ none ↔ s.phase = Phase.question :=
  (reachable_wellFormed qs s h).2.2

/-- Witness for `deadline_iff_question_phase` after a concrete `start`. -/
theorem deadline_iff_question_phase_witness :
    (([Action.start "Ann" 0]).foldl (step smallBank) initialSession).endsAt ≠ none ↔
      (([Action.start "Ann" 0]).foldl (step smallBank) initialSession).phase = Phase.question :=
  deadline_iff_question_phase smallBank _ ⟨[Action.start "Ann" 0], rfl⟩

/-- C2: in every reachable session the answers map holds at most one entry per
identity id (duplicate-free keys); once an id has a recorded answer, every
later `answer` action by that id leaves the session unchanged; and the first
accepted answer of an id leaves exactly one entry for that id. -/
theorem answer_recorded_once (qs : List Question) (s : Session)
    (h : Reachable qs s) (actorId : String) :
    (s.answers.map Prod.fst).Nodup ∧
    (∀ a, lookupKey actorId s.answers = some a →
      ∀ actorName optionIndex now,
        handleAnswer actorName actorId optionIndex now s = s) ∧
    (∀ actorName optionIndex now,
      s.phase = Phase.question → actorName ≠ "" →
      0 ≤ optionIndex → optionIndex ≤ 3 →
      lookupKey actorId s.answers = none →
      ((handleAnswer actorName actorId optionIndex now s).answers.countP
          (fun p => p.1 == actorId)) = 1) := by
  refine ⟨(reachable_wellFormed qs s h).1, ?_, ?_⟩
  · intro a ha actorName optionIndex now
    unfold handleAnswer
    split
    · rfl
    · split
      · rfl
      · split
        · rfl
        · rw [ha]
  · intro actorName optionIndex now hp hn h0 h3 hl
    have hnotmem : actorId ∉ s.answers.map Prod.fst := (lookupKey_eq_none _ _).1 hl
    have hzero : s.answers.countP (fun p => p.1 == actorId) = 0 := by
      rw [List.countP_eq_zero]
      intro p hp'
      simp only [beq_iff_eq, decide_eq_true_eq]
      intro hpk
      exact hnotmem (hpk ▸ List.mem_map_of_mem Prod.fst hp')
    simp only [handleAnswer, hp, hn, hl]
    rw [if_neg (by simp), if_neg (by simp [hn]), if_neg (by simp [h0, h3])]
    simp [List.countP_append, hzero]

/-- Witness for `answer_recorded_once`: after `alice1` has answered, the
keys are duplicate-free and a second answer by `alice1` changes nothing. -/
theorem answer_recorded_once_witness :
    (reachedAnswered.answers.map Prod.fst).Nodup ∧
    handleAnswer "Bob" "alice1" 2 9 reachedAnswered = reachedAnswered :=
  ⟨(answer_recorded_once smallBank reachedAnswered
      ⟨[Action.start "Ann" 0, Action.answer "Ann" "alice1" 1 5], rfl⟩ "alice1").1,
   (answer_recorded_once smallBank reachedAnswered
      ⟨[Action.start "Ann" 0, Action.answer "Ann" "alice1" 1 5], rfl⟩ "alice1").2.1
      { optionIndex := 1, ts := 5 } (by decide) "Bob" 2 9⟩

/-- What `bumpScore` does to an arbitrary key's lookup. -/
theorem lookupKey_bumpScore (u v : String) (sc : List (String × Nat)) :
    lookupKey u (bumpScore v sc) =
      if v = u then some ((lookupKey u sc).getD 0 + 1) else lookupKey u sc := by
  induction sc with
  | nil =>
      by_cases h : v = u
      · subst h
        simp [bumpScore, lookupKey]
      · simp [bumpScore, lookupKey, h]
  | cons p rest ih =>
      obtain ⟨k, w⟩ := p
      by_cases hk : k = v
      · subst hk
        by_cases hu : k = u
        · subst hu
          simp [bumpScore, lookupKey]
        · simp [bumpScore, lookupKey, hu]
      · by_cases hu : k = u
        · have hvu : ¬v = u := fun hc => hk (hu.trans hc.symm)
          have huv : ¬u = v := fun hc => hvu hc.symm
          simp [bumpScore, lookupKey, hk, hu, hvu, huv]
        · simp [bumpScore, lookupKey, hk, hu, ih]

/-- Bumping a user's score raises exactly that user's read value by one. -/
theorem scoreOf_bumpScore_same (u : String) (sc : List (String × Nat)) :
    scoreOf u (bumpScore u sc) = scoreOf u sc + 1 := by
  unfold scoreOf
  rw [lookupKey_bumpScore, if_pos rfl]
  rfl

/-- Bumping one user leaves every other user's score unchanged. -/
theorem scoreOf_bumpScore_ne (u v : String) (sc : List (String × Nat))
    (h : v ≠ u) : scoreOf u (bumpScore v sc) = scoreOf u sc := by
  unfold scoreOf
  rw [lookupKey_bumpScore, if_neg h]

/-- The scoring loop never touches a user that holds no recorded answer. -/
theorem scoreOf_applyScores_not_mem (c : Int) (ans : List (String × Answer))
    (sc : List (String × Nat)) (u : String) (h : u ∉ ans.map Prod.fst) :
    scoreOf u (applyScores c ans sc) = scoreOf u sc := by
  induction ans generalizing sc with
  | nil => rfl
  | cons p rest ih =>
      obtain ⟨k, a⟩ := p
      simp only [List.map_cons, List.mem_cons, not_or] at h
      obtain ⟨hku, hmem⟩ := h
      rw [applyScores, ih _ hmem]
      by_cases hc : a.optionIndex = c
      · rw [if_pos hc, scoreOf_bumpScore_ne u k sc (Ne.symm hku)]
      · rw [if_neg hc]

/-- The scoring loop over a duplicate-free answers map adds exactly one point
to a user iff that user's recorded answer matches the correct index. -/
theorem scoreOf_applyScores (c : Int) (ans : List (String × Answer))
    (sc : List (String × Nat)) (u : String)
    (hnd : (ans.map Prod.fst).Nodup) :
    scoreOf u (applyScores c ans sc) =
      scoreOf u sc +
        (match lookupKey u ans with
         | some a => if a.optionIndex = c then 1 else 0
         | none => 0) := by
  induction ans generalizing sc with
  | nil => simp [applyScores, lookupKey]
  | cons p rest ih =>
      obtain ⟨k, a⟩ := p
      simp only [List.map_cons, List.nodup_cons] at hnd
      obtain ⟨hk, hndr⟩ := hnd
      rw [applyScores]
      by_cases hku : k = u
      · subst hku
        rw [scoreOf_applyScores_not_mem c rest _ k hk]
        rw [show lookupKey k ((k, a) :: rest) = some a from by simp [lookupKey]]
        show scoreOf k (if a.optionIndex = c then bumpScore k sc else sc) =
          scoreOf k sc + (if a.optionIndex = c then 1 else 0)
        by_cases hc : a.optionIndex = c
        · rw [if_pos hc, if_pos hc, scoreOf_bumpScore_same]
        · rw [if_neg hc, if_neg hc, Nat.add_zero]
      · rw [ih _ hndr]
        rw [show lookupKey u ((k, a) :: rest) = lookupKey u rest from by
          simp [lookupKey, hku]]
        by_cases hc : a.optionIndex = c
        · rw [if_pos hc, scoreOf_bumpScore_ne u k sc hku]
        · rw [if_neg hc]

/-- C3: when the question-to-reveal transition fires from the `question`
phase, a user whose recorded answer equals the current question's correct
index gains exactly one point, and every other user's score is unchanged
(no partial or time-based credit). -/
theorem reveal_scores_exact (qs : List Question) (s : Session)
    (hphase : s.phase = Phase.question)
    (hnd : (s.answers.map Prod.fst).Nodup)
    (q : Question) (hq : currentQuestion qs s = some q) (u : String) :
    scoreOf u (revealQuestion qs s).scores =
      scoreOf u s.scores +
        (match lookupKey u s.answers with
         | some a => if a.optionIndex = (q.correct : Int) then 1 else 0
         | none => 0) := by
  unfold revealQuestion
  rw [if_neg (by simp [hphase]), hq]
  exact scoreOf_applyScores (q.correct : Int) s.answers s.scores u hnd

/-- Witness for `reveal_scores_exact`: the correct answerer gains one point. -/
theorem reveal_scores_exact_witness :
    scoreOf "alice1" (revealQuestion smallBank scoringSession).scores =
      scoreOf "alice1" scoringSession.scores + 1 :=
  (reveal_scores_exact smallBank scoringSession rfl (by decide)
      { id := "s1", prompt := "one", options := ["a", "b", "c", "d"], correct := 0 }
      (by decide) "alice1").trans (by decide)

/-- `revealQuestion` never changes which question is current. -/
theorem revealQuestion_questionIndex (qs : List Question) (s : Session) :
    (revealQuestion qs s).questionIndex = s.questionIndex := by
  by_cases hp : s.phase = Phase.question
  · unfold revealQuestion
    rw [if_neg (by simp [hp])]
    cases hq : currentQuestion qs s <;> rfl
  · rw [revealQuestion_noop qs s hp]

/-- `next` outside the `reveal` phase is the identity. -/
theorem handleNext_noop (qs : List Question) (now : Nat) (s : Session)
    (h : s.phase ≠ Phase.reveal) : handleNext qs now s = s := by
  simp [handleNext, h]

/-- `next` in `reveal` with questions remaining advances to the next question
with cleared answers and a fresh deadline. -/
theorem handleNext_advance (qs : List Question) (now : Nat) (s : Session)
    (h : s.phase = Phase.reveal)
    (hlt : s.questionIndex + 1 < (qs.length : Int)) :
    handleNext qs now s =
      { s with phase := Phase.question, questionIndex := s.questionIndex + 1,
               answers := [], endsAt := some (now + QUESTION_DURATION_MS) } := by
  unfold handleNext nextQuestion
  rw [if_pos h, if_neg (by omega), if_pos hlt]
  rfl

/-- `next` in `reveal` on the last question ends the game and clears the
deadline. -/
theorem handleNext_end (qs : List Question) (now : Nat) (s : Session)
    (h : s.phase = Phase.reveal)
    (hge : (qs.length : Int) ≤ s.questionIndex + 1) :
    handleNext qs now s = { s with phase := Phase.ended, endsAt := none } := by
  unfold handleNext
  rw [if_pos h, if_pos hge]

/-- From question `i` of an `N`-question bank, `N - i` reveal-then-next
cycles land in the `ended` phase. -/
theorem runCycles_ended (qs : List Question) (nows : List Nat) :
    ∀ (s : Session) (i : Nat),
      s.phase = Phase.question → s.questionIndex = (i : Int) →
      i < qs.length → i + nows.length = qs.length →
      (runCycles qs nows s).phase = Phase.ended := by
  induction nows with
  | nil =>
      intro s i hp hi hlt hlen
      simp only [List.length_nil, Nat.add_zero] at hlen
      omega
  | cons now rest ih =>
      intro s i hp hi hlt hlen
      have hrev : (revealQuestion qs s).phase = Phase.reveal :=
        revealQuestion_phase qs s hp
      have hidx : (revealQuestion qs s).questionIndex = (i : Int) := by
        rw [revealQuestion_questionIndex qs s, hi]
      unfold runCycles
      rw [List.foldl_cons]
      by_cases hmore : i + 1 < qs.length
      · have hstep := handleNext_advance qs now (revealQuestion qs s) hrev
          (by rw [hidx]; omega)
        rw [hstep]
        exact ih _ (i + 1) rfl (by simp [hidx]) hmore (by
          simp only [List.length_cons] at hlen
          omega)
      · have hstep := handleNext_end qs now (revealQuestion qs s) hrev
          (by rw [hidx]; omega)
        rw [hstep]
        have hrest : rest = [] := by
          have : rest.length = 0 := by
            simp only [List.length_cons] at hlen
            omega
          exact List.eq_nil_of_length_eq_zero this
        subst hrest
        rfl

/-- C6: a `next` action outside `reveal` changes nothing; in `reveal` it
advances to the next question (index +1, answers cleared, fresh deadline)
while questions remain, and moves to `ended` with the deadline cleared on the
last question; so a run from question 0 that reveals each question and then
advances reaches `ended` after exactly `N` reveal-to-next transitions. -/
theorem next_action_spec (qs : List Question) (now : Nat) (s : Session) :
    (s.phase ≠ Phase.reveal → handleNext qs now s = s) ∧
    (s.phase = Phase.reveal → s.questionIndex + 1 < (qs.length : Int) →
      handleNext qs now s =
        { s with phase := Phase.question, questionIndex := s.questionIndex + 1,
                 answers := [], endsAt := some (now + QUESTION_DURATION_MS) }) ∧
    (s.phase = Phase.reveal → (qs.length : Int) ≤ s.questionIndex + 1 →
      handleNext qs now s = { s with phase := Phase.ended, endsAt := none }) ∧
    (∀ (nows : List Nat),
      s.phase = Phase.question → s.questionIndex = 0 →
      0 < qs.length → nows.length = qs.length →
      (runCycles qs nows s).phase = Phase.ended) :=
  ⟨handleNext_noop qs now s,
   handleNext_advance qs now s,
   handleNext_end qs now s,
   fun nows hp hi hpos hlen =>
     runCycles_ended qs nows s 0 hp (by rw [hi]; rfl) hpos (by omega)⟩

/-- Witness for `next_action_spec`: a no-op `next` in the lobby, and a full
two-question run ending the game. -/
theorem next_action_spec_witness :
    handleNext smallBank 3 initialSession = initialSession ∧
    (runCycles smallBank [1, 2] (startQuestion 0 0 initialSession)).phase =
      Phase.ended :=
  ⟨(next_action_spec smallBank 3 initialSession).1 (by decide),
   (next_action_spec smallBank 0 (startQuestion 0 0 initialSession)).2.2.2
     [1, 2] rfl rfl (by decide) (by decide)⟩

/-- C9: `revealQuestion` is the identity outside the `question` phase, hence
idempotent; the timer-tick body likewise cannot fire outside the `question`
phase, so repeated ticks reveal (and score) a question at most once. -/
theorem reveal_noop_and_idempotent (qs : List Question) (s : Session) :
    (s.phase ≠ Phase.question → revealQuestion qs s = s) ∧
    revealQuestion qs (revealQuestion qs s) = revealQuestion qs s ∧
    (∀ now, s.phase ≠ Phase.question → tickCheck qs now s = s) ∧
    (∀ now, tickCheck qs now (revealQuestion qs s) = revealQuestion qs s) := by
  have htick : ∀ (t : Session) (n : Nat), t.phase ≠ Phase.question →
      tickCheck qs n t = t := by
    intro t n ht
    unfold tickCheck
    cases he : t.endsAt with
    | none => rfl
    | some e =>
        show (if t.phase = Phase.question ∧ e ≠ 0 ∧ e ≤ n then revealQuestion qs t else t) = t
        rw [if_neg (by simp [ht])]
  refine ⟨revealQuestion_noop qs s, ?_, fun now h => htick s now h, ?_⟩
  · by_cases h : s.phase = Phase.question
    · exact revealQuestion_noop qs _ (by rw [revealQuestion_phase qs s h]; simp)
    · rw [revealQuestion_noop qs s h]
      exact revealQuestion_noop qs s h
  · intro now
    by_cases h : s.phase = Phase.question
    · exact htick _ now (by rw [revealQuestion_phase qs s h]; simp)
    · rw [revealQuestion_noop qs s h]
      exact htick s now h

/-- One counts-loop step never changes the array's length. -/
theorem countsStep_length (counts : List Nat) (a : Answer) :
    (countsStep counts a).length = counts.length := by
  unfold countsStep
  by_cases h : 0 ≤ a.optionIndex ∧ a.optionIndex ≤ 3
  · rw [if_pos h, List.length_set]
  · rw [if_neg h]

theorem calcCounts_foldl_length (ans : List (String × Answer)) :
    ∀ counts : List Nat,
      (ans.foldl (fun c p => countsStep c p.2) counts).length = counts.length := by
  induction ans with
  | nil => intro c; rfl
  | cons p rest ih =>
      intro c
      rw [List.foldl_cons, ih, countsStep_length]

/-- The counts array always has exactly 4 entries. -/
theorem calcCounts_length (ans : List (String × Answer)) :
    (calcCounts ans).length = 4 :=
  calcCounts_foldl_length ans [0, 0, 0, 0]

/-- Incrementing one in-range cell raises the array's sum by one. -/
theorem sum_set_getD (l : List Nat) (i : Nat) (h : i < l.length) :
    (l.set i (l.getD i 0 + 1)).sum = l.sum + 1 := by
  induction l generalizing i with
  | nil => simp at h
  | cons x xs ih =>
      cases i with
      | zero =>
          simp only [List.set_cons_zero, List.getD_cons_zero, List.sum_cons]
          omega
      | succ n =>
          have hn : n < xs.length := by simpa using h
          simp only [List.set_cons_succ, List.getD_cons_succ, List.sum_cons]
          rw [ih n hn]
          omega

/-- On a length-4 array, a valid answer's counts step adds one to the sum. -/
theorem countsStep_sum (counts : List Nat) (a : Answer)
    (hlen : counts.length = 4)
    (hv : 0 ≤ a.optionIndex ∧ a.optionIndex ≤ 3) :
    (countsStep counts a).sum = counts.sum + 1 := by
  unfold countsStep
  rw [if_pos hv]
  apply sum_set_getD
  rw [hlen]
  omega

theorem calcCounts_foldl_sum (ans : List (String × Answer)) :
    ∀ counts : List Nat, counts.length = 4 →
      (∀ p ∈ ans, 0 ≤ p.2.optionIndex ∧ p.2.optionIndex ≤ 3) →
      (ans.foldl (fun c p => countsStep c p.2) counts).sum =
        counts.sum + ans.length := by
  induction ans with
  | nil =>
      intro c _ _
      simp
  | cons p rest ih =>
      intro c hlen hv
      rw [List.foldl_cons,
        ih (countsStep c p.2) (by rw [countsStep_length, hlen])
          (fun q hq => hv q (List.mem_cons_of_mem p hq)),
        countsStep_sum c p.2 hlen (hv p (List.mem_cons_self p rest)),
        List.length_cons]
      omega

/-- C10: every snapshot's `counts` is an array of exactly 4 (non-negative)
tallies, and in every reachable session — where each recorded option index is
an integer in `[0, 3]` — their sum equals `totalAnswers`, the number of
entries of the answers map. -/
theorem counts_array_sums_to_totalAnswers (qs : List Question)
    (clients : List ClientMeta) (now : Nat) (s : Session) (viewerId : String)
    (h : Reachable qs s) :
    (deriveState qs clients now s viewerId).counts.length = 4 ∧
    (deriveState qs clients now s viewerId).counts.sum =
      (deriveState qs clients now s viewerId).totalAnswers := by
  have hwf := reachable_wellFormed qs s h
  constructor
  · exact calcCounts_length s.answers
  · show (calcCounts s.answers).sum = s.answers.length
    unfold calcCounts
    rw [calcCounts_foldl_sum s.answers [0, 0, 0, 0] rfl hwf.2.1]
    simp

/-- Witness for `counts_array_sums_to_totalAnswers` on a session with one
recorded answer. -/
theorem counts_array_sums_to_totalAnswers_witness :
    (deriveState smallBank [] 6 reachedAnswered "").counts.length = 4 ∧
    (deriveState smallBank [] 6 reachedAnswered "").counts.sum =
      (deriveState smallBank [] 6 reachedAnswered "").totalAnswers :=
  counts_array_sums_to_totalAnswers smallBank [] 6 reachedAnswered ""
    ⟨[Action.start "Ann" 0, Action.answer "Ann" "alice1" 1 5], rfl⟩

/-- Witness for `reveal_noop_and_idempotent` at a reveal-phase session. -/
theorem reveal_noop_and_idempotent_witness :
    revealQuestion smallBank revealSession = revealSession ∧
    tickCheck smallBank 99 revealSession = revealSession :=
  ⟨(reveal_noop_and_idempotent smallBank revealSession).1 (by decide),
   (reveal_noop_and_idempotent smallBank revealSession).2.2.1 99 (by decide)⟩

end Quiz
